import Mathlib

/-!
Shallow embedding of the spreading-operator secret-replication controller
(src/main.rs and src/finalizer.rs). Kubernetes API interactions are modelled
by an oracle environment `Env` giving the response of each store primitive,
and every embedded function returns its outcome together with the trace of
store operations it issued. `BTreeMap` values (labels, annotations, data)
are modelled as association lists holding the map entries in the map's
iteration order. Rust panics (`unwrap`, the `expect` inside the kube
`name()` accessor) are modelled by the `panicked` outcome.
-/

namespace Spread

/-- Constant from src/main.rs line 17 (named OWNER_ANNOTATION there): the
ownership-marker label key. -/
def OWNER_LABEL_KEY : String := "eu.fitzek.spread.owner"

/-- Constant from src/finalizer.rs line 6. -/
def FINALIZER_NAME : String := "secretspreading.fitzek.eu/finalizer"

/-- Directive key inlined at src/main.rs line 83, read from the source
object's annotation map. -/
def TARGET_NAMESPACE_KEY : String := "eu.fitzek.spread.target-namespace"

/-- ASCII lower-casing of one character, as Rust `to_ascii_lowercase`. -/
def asciiLower (c : Char) : Char :=
  if 'A' ≤ c ∧ c ≤ 'Z' then Char.ofNat (c.toNat + 32) else c

/-- Rust `str::eq_ignore_ascii_case`. -/
def eqIgnoreAsciiCase (a b : String) : Bool :=
  a.data.map asciiLower == b.data.map asciiLower

/-- Entries of a `BTreeMap{String, String}` in iteration order. -/
abbrev StrMap := List (String × String)

/-- Entries of a `BTreeMap{String, ByteString}` in iteration order. -/
abbrev ByteMap := List (String × List Nat)

structure ObjectMeta where
  name : Option String
  namespace_ : Option String
  uid : Option String
  labels : Option StrMap
  annotations : Option StrMap
  deletion_timestamp : Option String
  finalizers : Option (List String)
deriving DecidableEq, Repr

/-- Embeds `ObjectMeta::default()`: every field unset. -/
def ObjectMeta.empty : ObjectMeta :=
  { name := none, namespace_ := none, uid := none, labels := none,
    annotations := none, deletion_timestamp := none, finalizers := none }

/-- The fields of `k8s_openapi` `Secret` that the program touches. -/
structure Secret where
  metadata : ObjectMeta
  type_ : Option String
  data : Option ByteMap
  string_data : Option StrMap
deriving DecidableEq, Repr

/-- A cluster `Namespace` object; only its `metadata.name` is ever read. -/
structure NamespaceObj where
  name : Option String
deriving DecidableEq, Repr

/-- Embeds `kube::Error`, split into the API-response case (with status code,
matched at src/main.rs lines 162-165) and everything else. -/
inductive KubeErr where
  | api (code : Nat)
  | other (msg : String)
deriving DecidableEq, Repr

/-- The reconciler error enum from src/main.rs lines 63-78. -/
inductive Error where
  | kubeError (e : KubeErr)
  | userInputError (msg : String)
  | missingObjectKey (nm : String)
deriving DecidableEq, Repr

/-- Outcome of running a piece of the program: normal return, the typed
error of a `?` propagation, or a Rust panic. -/
inductive RResult (α : Type) where
  | ok (a : α)
  | err (e : Error)
  | panicked (msg : String)
deriving DecidableEq, Repr

/-- True exactly on the panic outcome. -/
def isPanicked {α : Type} : RResult α → Bool
  | .panicked _ => true
  | _ => false

/-- The body of a merge-patch issued by the program: either the payload
field only (src/main.rs lines 204-206) or the finalizer list only
(src/finalizer.rs lines 27-31 and 45-49). -/
inductive PatchBody where
  | dataPatch (d : Option ByteMap)
  | finalizersPatch (fins : List String)
deriving DecidableEq, Repr

/-- One operation against the object store, as issued by the program. -/
inductive Op where
  | getSecret (ns nm : String)
  | createSecret (ns : String) (s : Secret)
  | patchSecret (ns nm : String) (p : PatchBody)
  | deleteSecret (ns nm : String)
  | listSecrets (labelKey labelValue : String)
  | listNamespaces
deriving DecidableEq, Repr

/-- Oracle for the object-store client: the response each primitive would
return during this reconciliation invocation. -/
structure Env where
  nsList : Except KubeErr (List NamespaceObj)
  getSecret : String → String → Except KubeErr Secret
  createSecret : String → Secret → Except KubeErr Unit
  patchSecret : String → String → PatchBody → Except KubeErr Unit
  listSecrets : String → String → Except KubeErr (List Secret)
  deleteSecret : String → String → Except KubeErr Unit

/-- Embeds `get_target_namespace` (src/main.rs lines 80-92): find the first
annotation whose key matches the directive key ASCII-case-insensitively. -/
def get_target_namespace (sec : Secret) : Option String :=
  match sec.metadata.annotations with
  | some a =>
    match a.find? (fun x => eqIgnoreAsciiCase x.1 TARGET_NAMESPACE_KEY) with
    | some x => some x.2
    | none => none
  | none => none

namespace finalizer

/-- Embeds `finalizer::add` (src/finalizer.rs lines 8-36). -/
def add (env : Env) (nm ns : String) (sec : Secret) :
    Except KubeErr Unit × List Op :=
  if (match sec.metadata.finalizers with
      | some fs => fs.any (fun s => eqIgnoreAsciiCase s FINALIZER_NAME)
      | none => false) then
    (.ok (), [])
  else
    let fin : List String :=
      match sec.metadata.finalizers with
      | none => [FINALIZER_NAME]
      | some fs =>
        if (fs.find? (fun f => eqIgnoreAsciiCase f FINALIZER_NAME)).isNone then
          fs ++ [FINALIZER_NAME]
        else fs
    (env.patchSecret ns nm (.finalizersPatch fin),
     [Op.patchSecret ns nm (.finalizersPatch fin)])

/-- Embeds `finalizer::rm` (src/finalizer.rs lines 38-56). -/
def rm (env : Env) (nm ns : String) (sec : Secret) :
    Except KubeErr Unit × List Op :=
  match sec.metadata.finalizers with
  | some fs =>
    let fin := fs.filter (fun f => !(eqIgnoreAsciiCase f FINALIZER_NAME))
    (env.patchSecret ns nm (.finalizersPatch fin),
     [Op.patchSecret ns nm (.finalizersPatch fin)])
  | none => (.ok (), [])

end finalizer

/-- Embeds `BTreeMap::insert` on the iteration-order entry list: place the new
pair at its sorted position, replacing an equal key. -/
def btreeInsert (k v : String) : StrMap → StrMap
  | [] => [(k, v)]
  | (k1, v1) :: rest =>
    if k < k1 then (k, v) :: (k1, v1) :: rest
    else if k = k1 then (k, v) :: rest
    else (k1, v1) :: btreeInsert k v rest

/-- Exact-key lookup in an entry list (Kubernetes label keys are
case-sensitive on the store side). -/
def mapLookup (m : StrMap) (k : String) : Option String :=
  (m.find? (fun p => p.1 == k)).map (fun p => p.2)

/-- The replica constructed at src/main.rs lines 171-187: source payload
and type tag, source labels plus the ownership marker mapped to the source
UID, name and namespace set to the target. -/
def mkReplica (sec : Secret) (nm ns source_uid : String) : Secret :=
  let target_labels : StrMap :=
    match sec.metadata.labels with
    | some v => v
    | none => []
  { type_ := sec.type_
    string_data := sec.string_data
    data := sec.data
    metadata := { ObjectMeta.empty with
                  name := some nm
                  namespace_ := some ns
                  labels := some (btreeInsert OWNER_LABEL_KEY source_uid target_labels) } }

/-- The error pattern tolerated by the get at src/main.rs lines 162-165:
an API error response with status code 404. -/
def isNotFound : KubeErr → Bool
  | .api code => code == 404
  | .other _ => false

/-- The body of the per-namespace loop of `sync_secret`
(src/main.rs lines 159-213): get, then create / classify-and-update /
skip-foreign. -/
def syncOne (env : Env) (sec : Secret) (source_uid nm ns : String) :
    RResult Unit × List Op :=
  match env.getSecret ns nm with
  | .error e =>
    if isNotFound e then
      let new_secret := mkReplica sec nm ns source_uid
      (match env.createSecret ns new_secret with
       | .ok _ => .ok ()
       | .error e2 => .err (.kubeError e2),
       [Op.getSecret ns nm, Op.createSecret ns new_secret])
    else
      (.err (.kubeError e), [Op.getSecret ns nm])
  | .ok existing_secret =>
    let s : Option (String × String) :=
      match existing_secret.metadata.labels with
      | none => none
      | some v => v.find? (fun a => eqIgnoreAsciiCase a.1 OWNER_LABEL_KEY)
    if s.isSome then
      if existing_secret.data ≠ sec.data then
        match existing_secret.metadata.name with
        | some exName =>
          (match env.patchSecret ns exName (.dataPatch sec.data) with
           | .ok _ => .ok ()
           | .error e => .err (.kubeError e),
           [Op.getSecret ns nm, Op.patchSecret ns exName (.dataPatch sec.data)])
        | none => (.panicked "kind has metadata.name", [Op.getSecret ns nm])
      else
        (.ok (), [Op.getSecret ns nm])
    else
      (.ok (), [Op.getSecret ns nm])

/-- The `for ns in namespaces` loop of `sync_secret` (src/main.rs lines
154-214), skipping the source namespace and aborting on the first
propagated error. -/
def syncLoop (env : Env) (sec : Secret) (source_uid source_namespace nm : String) :
    List String → RResult Unit × List Op
  | [] => (.ok (), [])
  | ns :: rest =>
    if ns = source_namespace then
      syncLoop env sec source_uid source_namespace nm rest
    else
      let step := syncOne env sec source_uid nm ns
      match step.1 with
      | .ok _ =>
        let tail := syncLoop env sec source_uid source_namespace nm rest
        (tail.1, step.2 ++ tail.2)
      | .err e => (.err e, step.2)
      | .panicked m => (.panicked m, step.2)

/-- Rust `str::split(",")` on the character list of the directive: one
(possibly empty) token between every pair of consecutive commas, so the
empty string yields one empty token. -/
def splitComma : List Char → List String
  | [] => [""]
  | c :: rest =>
    if c = ',' then "" :: splitComma rest
    else
      match splitComma rest with
      | s :: ss => String.mk (c :: s.data) :: ss
      | [] => [String.mk [c]]

/-- Rust `target_namespace_name.split(",").collect()` (src/main.rs
line 149). -/
def splitOnComma (s : String) : List String := splitComma s.data

/-- Embeds `ns.name()` mapped over a namespace list (src/main.rs line 147); the
kube accessor panics when `metadata.name` is absent. -/
def namespaceNames : List NamespaceObj → RResult (List String)
  | [] => .ok []
  | n :: rest =>
    match n.name with
    | none => .panicked "kind has metadata.name"
    | some v =>
      match namespaceNames rest with
      | .ok vs => .ok (v :: vs)
      | .err e => .err e
      | .panicked m => .panicked m

/-- Namespace resolution (src/main.rs lines 143-150): the wildcard lists
all cluster namespaces, anything else is split on commas. -/
def resolve_namespaces (env : Env) (target_namespace_name : String) :
    RResult (List String) × List Op :=
  if target_namespace_name = "*" then
    (match env.nsList with
     | .ok l => namespaceNames l
     | .error e => .err (.kubeError e),
     [Op.listNamespaces])
  else
    (.ok (splitOnComma target_namespace_name), [])

/-- Requeue directive returned to the controller runtime; the interval is
in seconds. -/
structure ReconcilerAction where
  requeue_after : Option Nat
deriving DecidableEq, Repr

/-- Embeds `sync_secret` (src/main.rs lines 138-221): ensure the finalizer,
resolve the targets, run the per-namespace loop. -/
def sync_secret (env : Env) (sec : Secret)
    (source_uid source_namespace nm target_namespace_name : String) :
    RResult ReconcilerAction × List Op :=
  let fa := finalizer.add env nm source_namespace sec
  match fa.1 with
  | .error e => (.err (.kubeError e), fa.2)
  | .ok _ =>
    let res := resolve_namespaces env target_namespace_name
    match res.1 with
    | .err e => (.err e, fa.2 ++ res.2)
    | .panicked m => (.panicked m, fa.2 ++ res.2)
    | .ok namespaces =>
      let sl := syncLoop env sec source_uid source_namespace nm namespaces
      match sl.1 with
      | .ok _ => (.ok { requeue_after := some 60 }, fa.2 ++ res.2 ++ sl.2)
      | .err e => (.err e, fa.2 ++ res.2 ++ sl.2)
      | .panicked m => (.panicked m, fa.2 ++ res.2 ++ sl.2)

/-- The `for secret in secrets` loop of `secret_cleanup` (src/main.rs lines
232-237): read the listed secret's name and namespace (panicking accessors)
and delete it, aborting on the first failed delete. -/
def cleanupLoop (env : Env) : List Secret → RResult Unit × List Op
  | [] => (.ok (), [])
  | s :: rest =>
    match s.metadata.name with
    | none => (.panicked "kind has metadata.name", [])
    | some sname =>
      match s.metadata.namespace_ with
      | none => (.panicked "called Option::unwrap on a None value", [])
      | some sns =>
        match env.deleteSecret sns sname with
        | .error e => (.err (.kubeError e), [Op.deleteSecret sns sname])
        | .ok _ =>
          let tail := cleanupLoop env rest
          (tail.1, Op.deleteSecret sns sname :: tail.2)

/-- Embeds `secret_cleanup` (src/main.rs lines 223-245): list every secret
cluster-wide carrying the ownership label equal to the source UID, delete
each, then remove the finalizer. -/
def secret_cleanup (env : Env) (sec : Secret)
    (source_namespace nm source_uid : String) :
    RResult ReconcilerAction × List Op :=
  match env.listSecrets OWNER_LABEL_KEY source_uid with
  | .error e => (.err (.kubeError e), [Op.listSecrets OWNER_LABEL_KEY source_uid])
  | .ok secrets =>
    let cl := cleanupLoop env secrets
    match cl.1 with
    | .err e => (.err e, Op.listSecrets OWNER_LABEL_KEY source_uid :: cl.2)
    | .panicked m =>
      (.panicked m, Op.listSecrets OWNER_LABEL_KEY source_uid :: cl.2)
    | .ok _ =>
      let fr := finalizer.rm env nm source_namespace sec
      match fr.1 with
      | .ok _ =>
        (.ok { requeue_after := none },
         Op.listSecrets OWNER_LABEL_KEY source_uid :: (cl.2 ++ fr.2))
      | .error e =>
        (.err (.kubeError e),
         Op.listSecrets OWNER_LABEL_KEY source_uid :: (cl.2 ++ fr.2))

/-- Embeds `reconcile` (src/main.rs lines 94-135): read the directive, require
namespace and UID, read the name (panicking accessor), branch on the
deletion timestamp. -/
def reconcile (env : Env) (sec : Secret) : RResult ReconcilerAction × List Op :=
  match get_target_namespace sec with
  | none => (.ok { requeue_after := some 300 }, [])
  | some target_namespace_name =>
    match sec.metadata.namespace_ with
    | none =>
      (.err (.userInputError
        "Expected Secret resource to be namespaced. Cannot deploy to an unknown namespace."), [])
    | some source_namespace =>
      match sec.metadata.uid with
      | none => (.err (.userInputError "Expected Secret resource to have an uid"), [])
      | some source_uid =>
        match sec.metadata.name with
        | none => (.panicked "kind has metadata.name", [])
        | some nm =>
          if sec.metadata.deletion_timestamp.isSome then
            secret_cleanup env sec source_namespace nm source_uid
          else
            sync_secret env sec source_uid source_namespace nm target_namespace_name

/-- A foreign object in the sense of the spec: no label key equal to the
ownership marker under ASCII-case-insensitive comparison. -/
def lacksOwnerKeyCI (s : Secret) : Prop :=
  ∀ L, s.metadata.labels = some L →
    ∀ p ∈ L, eqIgnoreAsciiCase p.1 OWNER_LABEL_KEY = false

/-- Well-formedness of the store responses that the Kubernetes API
guarantees: every object it returns carries `metadata.name`, and every
object returned by a cluster-wide list carries `metadata.namespace`. -/
structure EnvWF (env : Env) : Prop where
  nsNames : ∀ l, env.nsList = .ok l → ∀ n ∈ l, n.name.isSome = true
  gotNames : ∀ ns nm ex, env.getSecret ns nm = .ok ex →
    ex.metadata.name.isSome = true
  listedMeta : ∀ k v l, env.listSecrets k v = .ok l →
    ∀ s ∈ l, s.metadata.name.isSome = true ∧ s.metadata.namespace_.isSome = true

/-- An environment whose reads all miss and whose writes all succeed. -/
def envTrivial : Env :=
  { nsList := .ok []
    getSecret := fun _ _ => .error (.api 404)
    createSecret := fun _ _ => .ok ()
    patchSecret := fun _ _ _ => .ok ()
    listSecrets := fun _ _ => .ok []
    deleteSecret := fun _ _ => .ok () }

/-- A source secret: named, namespaced, with UID, wildcard directive,
finalizer already present, and a small payload. -/
def secSrc : Secret :=
  { metadata := { name := some "s1", namespace_ := some "default",
                  uid := some "u1", labels := none,
                  annotations := some [(TARGET_NAMESPACE_KEY, "*")],
                  deletion_timestamp := none,
                  finalizers := some [FINALIZER_NAME] },
    type_ := some "Opaque", data := some [("k", [1, 2])], string_data := none }

/-- The same source with a different payload. -/
def secSrcDiff : Secret := { secSrc with data := some [("k", [3])] }

/-- A secret with no metadata at all. -/
def secNoFin : Secret :=
  { metadata := ObjectMeta.empty, type_ := none, data := none, string_data := none }

/-- A secret whose finalizer list holds the token in a different ASCII
case. -/
def secFinUpper : Secret :=
  { metadata := { ObjectMeta.empty with
                  finalizers := some ["SECRETSPREADING.FITZEK.EU/FINALIZER"] },
    type_ := none, data := none, string_data := none }

/-- A secret carrying the target-namespace directive under a key that
differs from the canonical one only in ASCII case. -/
def secDirectiveUpper : Secret :=
  { metadata := { ObjectMeta.empty with
                  annotations := some [("EU.Fitzek.Spread.Target-Namespace", "ns-a")] },
    type_ := none, data := none, string_data := none }

/-- A source secret whose deletion has been requested while the directive
annotation is absent and the finalizer is still present. -/
def secStuck : Secret :=
  { metadata := { name := some "s1", namespace_ := some "default",
                  uid := some "u1", labels := none, annotations := none,
                  deletion_timestamp := some "2026-01-01T00:00:00Z",
                  finalizers := some [FINALIZER_NAME] },
    type_ := none, data := none, string_data := none }

/-- A destination object with the ownership-marker key in a different
ASCII case, so its label map lacks the exact ownership-marker key. -/
def foreignUpper : Secret :=
  { metadata := { name := some "s1", namespace_ := some "ns-a", uid := none,
                  labels := some [("EU.FITZEK.SPREAD.OWNER", "u1")],
                  annotations := none, deletion_timestamp := none,
                  finalizers := none },
    type_ := none, data := some [("k", [9])], string_data := none }

/-- A store in which `ns-a` already holds `foreignUpper` under the source
name. -/
def envForeignUpper : Env :=
  { envTrivial with
    getSecret := fun ns n =>
      if ns = "ns-a" ∧ n = "s1" then .ok foreignUpper else .error (.api 404) }

/-- A managed replica at `ns-a`: it carries the exact ownership-marker
label and the same payload as `secSrc`. -/
def managedEx : Secret :=
  { metadata := { name := some "s1", namespace_ := some "ns-a", uid := none,
                  labels := some [(OWNER_LABEL_KEY, "u1")],
                  annotations := none, deletion_timestamp := none,
                  finalizers := none },
    type_ := some "Opaque", data := some [("k", [1, 2])], string_data := none }

/-- A store in which `ns-a` already holds `managedEx` under the source
name. -/
def envManaged : Env :=
  { envTrivial with
    getSecret := fun ns n =>
      if ns = "ns-a" ∧ n = "s1" then .ok managedEx else .error (.api 404) }

/-- A cluster with three namespaces and no secrets. -/
def envThreeNs : Env :=
  { envTrivial with
    nsList := .ok [{ name := some "default" }, { name := some "ns-a" },
                   { name := some "ns-b" }] }

/-- A store whose cluster-wide list returns one managed replica that lacks
`metadata.namespace` (a response the API never produces). -/
def envBadList : Env :=
  { envTrivial with
    listSecrets := fun _ _ =>
      .ok [{ metadata := { ObjectMeta.empty with name := some "s1" },
             type_ := none, data := none, string_data := none }] }

/-! ## Helper lemmas -/

theorem eqIgnoreAsciiCase_refl (s : String) : eqIgnoreAsciiCase s s = true := by
  simp [eqIgnoreAsciiCase]

/-! ## C1 -/

/-- C1: refuted on the code, the spec being the intent (code bug). When the
directive annotation is absent, `reconcile` returns before it ever looks at
the deletion timestamp, so for a source whose deletion has been requested
but whose annotation was removed, the garbage-collection path does not run:
no replica is enumerated or deleted and the finalizer is not released — the
invocation issues no store operation at all and merely re-queues. -/
theorem c1_cleanup_gated_on_directive (env : Env) :
    secStuck.metadata.deletion_timestamp.isSome = true
    ∧ get_target_namespace secStuck = none
    ∧ reconcile env secStuck = (.ok { requeue_after := some 300 }, []) :=
  ⟨rfl, rfl, rfl⟩

/-! ## C6 -/

/-- C6: finalizer `add` returns success without issuing any call when the
token is already present in the finalizer list under ASCII-case-insensitive
comparison; otherwise it issues exactly one merge-patch whose finalizer
list is the existing list with the token appended, or the singleton list
containing only the token when no finalizer list existed. -/
theorem c6_finalizer_add (env : Env) (nm ns : String) (sec : Secret) :
    ((∃ fs, sec.metadata.finalizers = some fs ∧
        fs.any (fun s => eqIgnoreAsciiCase s FINALIZER_NAME) = true) →
      finalizer.add env nm ns sec = (.ok (), []))
    ∧ (sec.metadata.finalizers = none →
      finalizer.add env nm ns sec =
        (env.patchSecret ns nm (.finalizersPatch [FINALIZER_NAME]),
         [Op.patchSecret ns nm (.finalizersPatch [FINALIZER_NAME])]))
    ∧ (∀ fs, sec.metadata.finalizers = some fs →
        (∀ f ∈ fs, eqIgnoreAsciiCase f FINALIZER_NAME = false) →
      finalizer.add env nm ns sec =
        (env.patchSecret ns nm (.finalizersPatch (fs ++ [FINALIZER_NAME])),
         [Op.patchSecret ns nm (.finalizersPatch (fs ++ [FINALIZER_NAME]))])) := by
  refine ⟨?_, ?_, ?_⟩
  · rintro ⟨fs, hfs, hany⟩
    simp [finalizer.add, hfs, hany]
  · intro h
    simp [finalizer.add, h]
  · intro fs hfs hall
    have hany : fs.any (fun s => eqIgnoreAsciiCase s FINALIZER_NAME) = false := by
      simp only [List.any_eq_false]
      intro f hf
      simp [hall f hf]
    have hfind : fs.find? (fun f => eqIgnoreAsciiCase f FINALIZER_NAME) = none := by
      rw [List.find?_eq_none]
      intro f hf
      simp [hall f hf]
    simp [finalizer.add, hfs, hany, hfind]

/-- C6 witness: with the token already present in a different ASCII case no
call is issued, and with no finalizer field a singleton-list patch is
issued. -/
theorem c6_finalizer_add_witness :
    finalizer.add envTrivial "s1" "default" secFinUpper = (.ok (), [])
    ∧ finalizer.add envTrivial "s1" "default" secNoFin =
        (.ok (), [Op.patchSecret "default" "s1" (.finalizersPatch [FINALIZER_NAME])]) :=
  ⟨(c6_finalizer_add envTrivial "s1" "default" secFinUpper).1 ⟨_, rfl, by decide⟩,
   (c6_finalizer_add envTrivial "s1" "default" secNoFin).2.1 rfl⟩

/-! ## C7 -/

/-- C7: finalizer `rm` issues a merge-patch whose finalizer list is the
existing list with the token filtered out under ASCII-case-insensitive
comparison — an explicit (possibly empty) list, never a field omission —
and every surviving entry is a non-token entry of the original list; when
the source has no finalizer field at all, the call is skipped and success
is returned. -/
theorem c7_finalizer_rm (env : Env) (nm ns : String) (sec : Secret) :
    (∀ fs, sec.metadata.finalizers = some fs →
      finalizer.rm env nm ns sec =
        (env.patchSecret ns nm
          (.finalizersPatch (fs.filter (fun f => !(eqIgnoreAsciiCase f FINALIZER_NAME)))),
         [Op.patchSecret ns nm
          (.finalizersPatch (fs.filter (fun f => !(eqIgnoreAsciiCase f FINALIZER_NAME))))])
      ∧ ∀ f ∈ fs.filter (fun f => !(eqIgnoreAsciiCase f FINALIZER_NAME)),
          f ∈ fs ∧ eqIgnoreAsciiCase f FINALIZER_NAME = false)
    ∧ (sec.metadata.finalizers = none →
        finalizer.rm env nm ns sec = (.ok (), [])) := by
  refine ⟨?_, ?_⟩
  · intro fs hfs
    refine ⟨by simp [finalizer.rm, hfs], ?_⟩
    intro f hf
    rw [List.mem_filter] at hf
    exact ⟨hf.1, by simpa using hf.2⟩
  · intro h
    simp [finalizer.rm, h]

/-- C7 witness: a case-variant token is filtered out, leaving an explicit
empty list in the patch body. -/
theorem c7_finalizer_rm_witness :
    finalizer.rm envTrivial "s1" "default" secFinUpper =
      (.ok (), [Op.patchSecret "default" "s1" (.finalizersPatch [])]) :=
  ((c7_finalizer_rm envTrivial "s1" "default" secFinUpper).1 _ rfl).1

/-! ## C10 -/

/-- C10: the directive annotation key is matched ASCII-case-insensitively:
when the annotation map holds a matching key, the value of the first such
entry is returned verbatim; no directive is returned exactly when no
annotation key matches; and with no directive, `reconcile` performs no
store operation and only schedules a re-check. -/
theorem c10_directive_lookup (env : Env) (sec : Secret) :
    (∀ a p, sec.metadata.annotations = some a →
      a.find? (fun x => eqIgnoreAsciiCase x.1 TARGET_NAMESPACE_KEY) = some p →
      get_target_namespace sec = some p.2)
    ∧ (get_target_namespace sec = none ↔
        ∀ a, sec.metadata.annotations = some a →
          ∀ p ∈ a, eqIgnoreAsciiCase p.1 TARGET_NAMESPACE_KEY = false)
    ∧ (get_target_namespace sec = none →
        reconcile env sec = (.ok { requeue_after := some 300 }, [])) := by
  refine ⟨?_, ?_, ?_⟩
  · intro a p ha hp
    simp [get_target_namespace, ha, hp]
  · cases ha : sec.metadata.annotations with
    | none => simp [get_target_namespace, ha]
    | some a =>
      cases hf : a.find? (fun x => eqIgnoreAsciiCase x.1 TARGET_NAMESPACE_KEY) with
      | none =>
        have hall := List.find?_eq_none.mp hf
        simp only [get_target_namespace, ha, hf]
        constructor
        · intro _ a2 ha2
          cases ha2
          intro p hp
          simpa using hall p hp
        · intro _
          trivial
      | some p =>
        simp only [get_target_namespace, ha, hf]
        constructor
        · intro h
          cases h
        · intro h
          have := h a rfl p (List.mem_of_find?_eq_some hf)
          have h2 := List.find?_some hf
          rw [this] at h2
          cases h2
  · intro h
    simp [reconcile, h]

/-- C10 witness: a case-variant directive key is recognized with its value
returned verbatim, and without annotations `reconcile` is a pure
re-queue. -/
theorem c10_directive_lookup_witness :
    get_target_namespace secDirectiveUpper = some "ns-a"
    ∧ reconcile envTrivial secNoFin = (.ok { requeue_after := some 300 }, []) :=
  ⟨(c10_directive_lookup envTrivial secDirectiveUpper).1 _
      ("EU.Fitzek.Spread.Target-Namespace", "ns-a") rfl (by decide),
   (c10_directive_lookup envTrivial secNoFin).2.2 rfl⟩

/-! ## C4 and C5 -/

theorem mapLookup_btreeInsert_self (k v : String) :
    ∀ m : StrMap, mapLookup (btreeInsert k v m) k = some v := by
  intro m
  induction m with
  | nil => simp [btreeInsert, mapLookup]
  | cons p rest ih =>
    rcases p with ⟨k1, v1⟩
    rw [btreeInsert]
    split_ifs with h1 h2
    · simp [mapLookup]
    · simp [mapLookup]
    · have hne : (k1 == k) = false := by
        simp only [beq_eq_false_iff_ne, ne_eq]
        exact fun hh => h2 hh.symm
      simpa [mapLookup, List.find?_cons, hne] using ih

theorem mapLookup_btreeInsert_ne (k v k2 : String) (hk : k2 ≠ k) :
    ∀ m : StrMap, mapLookup (btreeInsert k v m) k2 = mapLookup m k2 := by
  have hne : (k == k2) = false := by
    simp only [beq_eq_false_iff_ne, ne_eq]
    exact fun hh => hk hh.symm
  intro m
  induction m with
  | nil => simp [btreeInsert, mapLookup, hne]
  | cons p rest ih =>
    rcases p with ⟨k1, v1⟩
    rw [btreeInsert]
    split_ifs with h1 h2
    · simp [mapLookup, List.find?_cons, hne]
    · subst h2
      simp [mapLookup, List.find?_cons, hne]
    · cases hk1 : (k1 == k2) with
      | true =>
        simp [mapLookup, List.find?_cons, hk1]
      | false =>
        simpa [mapLookup, List.find?_cons, hk1] using ih

/-- C5: when the read at a target namespace misses (HTTP 404), the
synchronizer issues exactly one create after the get, and the created
replica carries the source's payload, string payload and type tag, the
target name and namespace, and a label map agreeing with the source's
labels (an absent source label map counting as empty) on every key except
the ownership marker, which it maps to the source UID. -/
theorem c5_create_replica (env : Env) (sec : Secret) (uid nm ns : String)
    (h404 : env.getSecret ns nm = .error (.api 404)) :
    ∃ s, (syncOne env sec uid nm ns).2 = [Op.getSecret ns nm, Op.createSecret ns s]
      ∧ s.data = sec.data ∧ s.string_data = sec.string_data ∧ s.type_ = sec.type_
      ∧ s.metadata.name = some nm ∧ s.metadata.namespace_ = some ns
      ∧ ∃ L, s.metadata.labels = some L
        ∧ mapLookup L OWNER_LABEL_KEY = some uid
        ∧ ∀ k, k ≠ OWNER_LABEL_KEY →
            mapLookup L k = mapLookup ((sec.metadata.labels).getD []) k := by
  refine ⟨mkReplica sec nm ns uid, ?_, rfl, rfl, rfl, rfl, rfl, ?_⟩
  · simp [syncOne, h404, isNotFound]
  · refine ⟨_, rfl, ?_, ?_⟩
    · cases h : sec.metadata.labels <;>
        simp [mkReplica, h, mapLookup_btreeInsert_self]
    · intro k hk
      cases h : sec.metadata.labels <;>
        simp [mkReplica, h, mapLookup_btreeInsert_ne _ _ _ hk]

/-- C5 witness: creating into an empty namespace from the concrete source
secret. -/
theorem c5_create_replica_witness :
    ∃ s, (syncOne envTrivial secSrc "u1" "s1" "ns-b").2 =
        [Op.getSecret "ns-b" "s1", Op.createSecret "ns-b" s]
      ∧ s.data = secSrc.data ∧ s.string_data = secSrc.string_data
      ∧ s.type_ = secSrc.type_
      ∧ s.metadata.name = some "s1" ∧ s.metadata.namespace_ = some "ns-b"
      ∧ ∃ L, s.metadata.labels = some L
        ∧ mapLookup L OWNER_LABEL_KEY = some "u1"
        ∧ ∀ k, k ≠ OWNER_LABEL_KEY →
            mapLookup L k = mapLookup ((secSrc.metadata.labels).getD []) k :=
  c5_create_replica envTrivial secSrc "u1" "s1" "ns-b" rfl

/-- C4: when the read at a target namespace finds an existing replica whose
label map contains the ownership-marker key (independently of that key's
value), the synchronizer compares the payload maps: if they are equal it
issues no further call beyond the get, and if they differ it issues exactly
one merge-patch carrying only the payload field, set to the source's
payload. -/
theorem c4_managed_update (env : Env) (sec ex : Secret) (uid nm ns exName : String)
    (hget : env.getSecret ns nm = .ok ex)
    (hmanaged : ∃ L, ex.metadata.labels = some L ∧
      (L.find? (fun a => eqIgnoreAsciiCase a.1 OWNER_LABEL_KEY)).isSome = true)
    (hname : ex.metadata.name = some exName) :
    (ex.data = sec.data →
      syncOne env sec uid nm ns = (.ok (), [Op.getSecret ns nm]))
    ∧ (ex.data ≠ sec.data →
      (syncOne env sec uid nm ns).2 =
        [Op.getSecret ns nm, Op.patchSecret ns exName (.dataPatch sec.data)]) := by
  obtain ⟨L, hL, hfind⟩ := hmanaged
  refine ⟨?_, ?_⟩
  · intro hdata
    simp [syncOne, hget, hL, hfind, hdata]
  · intro hdata
    simp [syncOne, hget, hL, hfind, hdata, hname]

/-- C4 witness: against a managed replica with identical payload only the
get is issued; against one with drifted payload a payload-only merge-patch
is issued. -/
theorem c4_managed_update_witness :
    syncOne envManaged secSrc "u1" "s1" "ns-a" = (.ok (), [Op.getSecret "ns-a" "s1"])
    ∧ (syncOne envManaged secSrcDiff "u1" "s1" "ns-a").2 =
        [Op.getSecret "ns-a" "s1",
         Op.patchSecret "ns-a" "s1" (.dataPatch (some [("k", [3])]))] :=
  ⟨(c4_managed_update envManaged secSrc managedEx "u1" "s1" "ns-a" "s1" rfl
      ⟨_, rfl, by decide⟩ rfl).1 rfl,
   (c4_managed_update envManaged secSrcDiff managedEx "u1" "s1" "ns-a" "s1" rfl
      ⟨_, rfl, by decide⟩ rfl).2 (by decide)⟩

/-! ## Cleanup-loop lemmas -/

theorem cleanupLoop_trace_ops (env : Env) :
    ∀ l : List Secret, ∀ op ∈ (cleanupLoop env l).2, ∃ a b, op = Op.deleteSecret a b := by
  intro l
  induction l with
  | nil => intro op h; simp [cleanupLoop] at h
  | cons s rest ih =>
    intro op h
    cases hn : s.metadata.name with
    | none => simp [cleanupLoop, hn] at h
    | some sname =>
      cases hns : s.metadata.namespace_ with
      | none => simp [cleanupLoop, hn, hns] at h
      | some sns =>
        cases hd : env.deleteSecret sns sname with
        | error e =>
          simp [cleanupLoop, hn, hns, hd] at h
          exact ⟨sns, sname, h⟩
        | ok u =>
          simp [cleanupLoop, hn, hns, hd] at h
          rcases h with h | h
          · exact ⟨sns, sname, h⟩
          · exact ih op h

theorem cleanupLoop_deletes (env : Env) :
    ∀ l : List Secret, ∀ dns dn, Op.deleteSecret dns dn ∈ (cleanupLoop env l).2 →
      ∃ s ∈ l, s.metadata.namespace_ = some dns ∧ s.metadata.name = some dn := by
  intro l
  induction l with
  | nil => intro dns dn h; simp [cleanupLoop] at h
  | cons s rest ih =>
    intro dns dn h
    cases hn : s.metadata.name with
    | none => simp [cleanupLoop, hn] at h
    | some sname =>
      cases hns : s.metadata.namespace_ with
      | none => simp [cleanupLoop, hn, hns] at h
      | some sns =>
        cases hd : env.deleteSecret sns sname with
        | error e =>
          simp [cleanupLoop, hn, hns, hd] at h
          exact ⟨s, by simp, by simp [hns, hn, h.1, h.2]⟩
        | ok u =>
          simp [cleanupLoop, hn, hns, hd] at h
          rcases h with ⟨h1, h2⟩ | h
          · exact ⟨s, by simp, by simp [hns, hn, h1, h2]⟩
          · obtain ⟨t, ht, hprop⟩ := ih dns dn h
            exact ⟨t, List.mem_cons_of_mem s ht, hprop⟩

theorem cleanupLoop_ok_deletes (env : Env) :
    ∀ l : List Secret, (cleanupLoop env l).1 = .ok () →
      ∀ s ∈ l, ∃ sns sname, s.metadata.namespace_ = some sns ∧
        s.metadata.name = some sname ∧ env.deleteSecret sns sname = .ok () := by
  intro l
  induction l with
  | nil => intro _ s h; simp at h
  | cons s rest ih =>
    intro hok t ht
    cases hn : s.metadata.name with
    | none => simp [cleanupLoop, hn] at hok
    | some sname =>
      cases hns : s.metadata.namespace_ with
      | none => simp [cleanupLoop, hn, hns] at hok
      | some sns =>
        cases hd : env.deleteSecret sns sname with
        | error e => simp [cleanupLoop, hn, hns, hd] at hok
        | ok u =>
          rw [List.mem_cons] at ht
          rcases ht with rfl | ht
          · exact ⟨sns, sname, hns, hn, by simpa using hd⟩
          · have : (cleanupLoop env rest).1 = .ok () := by
              have := hok
              simp [cleanupLoop, hn, hns, hd] at this
              cases hc : (cleanupLoop env rest).1 with
              | ok v => cases v; rfl
              | err e => rw [hc] at this; cases this
              | panicked m => rw [hc] at this; cases this
            exact ih this t ht

theorem cleanupLoop_ok_of_forall (env : Env) :
    ∀ l : List Secret,
      (∀ s ∈ l, ∃ sns sname, s.metadata.namespace_ = some sns ∧
        s.metadata.name = some sname ∧ env.deleteSecret sns sname = .ok ()) →
      (cleanupLoop env l).1 = .ok () := by
  intro l
  induction l with
  | nil => intro _; rfl
  | cons s rest ih =>
    intro h
    obtain ⟨sns, sname, hns, hn, hd⟩ := h s (by simp)
    have htail := ih (fun t ht => h t (List.mem_cons_of_mem s ht))
    simp [cleanupLoop, hn, hns, hd, htail]

theorem cleanupLoop_err_of_fail (env : Env) :
    ∀ l : List Secret,
      (∀ s ∈ l, s.metadata.name.isSome = true ∧ s.metadata.namespace_.isSome = true) →
      (∃ s ∈ l, ∃ sns sname, s.metadata.namespace_ = some sns ∧
        s.metadata.name = some sname ∧ ∃ ke, env.deleteSecret sns sname = .error ke) →
      ∃ e, (cleanupLoop env l).1 = .err e := by
  intro l
  induction l with
  | nil => intro _ h; simp at h
  | cons s rest ih =>
    intro hwf hfail
    obtain ⟨hn1, hns1⟩ := hwf s (by simp)
    obtain ⟨sname, hn⟩ := Option.isSome_iff_exists.mp hn1
    obtain ⟨sns, hns⟩ := Option.isSome_iff_exists.mp hns1
    cases hd : env.deleteSecret sns sname with
    | error e =>
      exact ⟨.kubeError e, by simp [cleanupLoop, hn, hns, hd]⟩
    | ok u =>
      obtain ⟨t, ht, tns, tname, htns, htn, ke, hke⟩ := hfail
      rw [List.mem_cons] at ht
      rcases ht with rfl | ht
      · rw [htns] at hns
        rw [htn] at hn
        cases hns
        cases hn
        rw [hke] at hd
        cases hd
      · obtain ⟨e, he⟩ :=
          ih (fun t2 ht2 => hwf t2 (List.mem_cons_of_mem s ht2))
            ⟨t, ht, tns, tname, htns, htn, ke, hke⟩
        exact ⟨e, by simp [cleanupLoop, hn, hns, hd, he]⟩

theorem rm_trace_ops (env : Env) (nm ns : String) (sec : Secret) :
    ∀ op ∈ (finalizer.rm env nm ns sec).2,
      ∃ fins, op = Op.patchSecret ns nm (.finalizersPatch fins) := by
  intro op h
  cases hfs : sec.metadata.finalizers with
  | none => simp [finalizer.rm, hfs] at h
  | some fs =>
    simp [finalizer.rm, hfs] at h
    exact ⟨_, h⟩

/-! ## C3 -/

/-- C3: in the garbage-collection pass, a finalizer merge-patch is issued
only when the enumeration succeeded and the deletion of every enumerated
replica succeeded; when some enumerated deletion fails (metadata being
well-formed), the pass returns an error and no finalizer patch appears in
the trace; and when every enumerated deletion succeeds and the source
carries a finalizer list, the finalizer-removal patch on the source is
issued. -/
theorem c3_cleanup_finalizer_order (env : Env) (sec : Secret)
    (sns nm uid : String) :
    (∀ pns pn fins,
      Op.patchSecret pns pn (.finalizersPatch fins) ∈ (secret_cleanup env sec sns nm uid).2 →
      ∃ l, env.listSecrets OWNER_LABEL_KEY uid = .ok l ∧
        ∀ s ∈ l, ∃ sns2 sn2, s.metadata.namespace_ = some sns2 ∧
          s.metadata.name = some sn2 ∧ env.deleteSecret sns2 sn2 = .ok ())
    ∧ (∀ l, env.listSecrets OWNER_LABEL_KEY uid = .ok l →
        (∀ s ∈ l, s.metadata.name.isSome = true ∧ s.metadata.namespace_.isSome = true) →
        (∃ s ∈ l, ∃ sns2 sn2, s.metadata.namespace_ = some sns2 ∧
          s.metadata.name = some sn2 ∧ ∃ ke, env.deleteSecret sns2 sn2 = .error ke) →
        (∃ e, (secret_cleanup env sec sns nm uid).1 = .err e)
        ∧ ∀ pns pn fins,
            Op.patchSecret pns pn (.finalizersPatch fins) ∉ (secret_cleanup env sec sns nm uid).2)
    ∧ (∀ l fs, env.listSecrets OWNER_LABEL_KEY uid = .ok l →
        (∀ s ∈ l, ∃ sns2 sn2, s.metadata.namespace_ = some sns2 ∧
          s.metadata.name = some sn2 ∧ env.deleteSecret sns2 sn2 = .ok ()) →
        sec.metadata.finalizers = some fs →
        Op.patchSecret sns nm
            (.finalizersPatch (fs.filter (fun f => !(eqIgnoreAsciiCase f FINALIZER_NAME))))
          ∈ (secret_cleanup env sec sns nm uid).2) := by
  refine ⟨?_, ?_, ?_⟩
  · intro pns pn fins hmem
    cases hlist : env.listSecrets OWNER_LABEL_KEY uid with
    | error e =>
      simp [secret_cleanup, hlist] at hmem
    | ok l =>
      refine ⟨l, rfl, ?_⟩
      cases hcl : (cleanupLoop env l).1 with
      | err e =>
        simp [secret_cleanup, hlist, hcl] at hmem
        obtain ⟨a, b, hab⟩ := cleanupLoop_trace_ops env l _ hmem
        cases hab
      | panicked m =>
        simp [secret_cleanup, hlist, hcl] at hmem
        obtain ⟨a, b, hab⟩ := cleanupLoop_trace_ops env l _ hmem
        cases hab
      | ok u =>
        cases u
        exact cleanupLoop_ok_deletes env l hcl
  · intro l hlist hwf hfail
    obtain ⟨e, he⟩ := cleanupLoop_err_of_fail env l hwf hfail
    constructor
    · exact ⟨e, by simp [secret_cleanup, hlist, he]⟩
    · intro pns pn fins hmem
      simp [secret_cleanup, hlist, he] at hmem
      obtain ⟨a, b, hab⟩ := cleanupLoop_trace_ops env l _ hmem
      cases hab
  · intro l fs hlist hall hfs
    have hok := cleanupLoop_ok_of_forall env l hall
    have hrm : (finalizer.rm env nm sns sec).2 =
        [Op.patchSecret sns nm
          (.finalizersPatch (fs.filter (fun f => !(eqIgnoreAsciiCase f FINALIZER_NAME))))] := by
      simp [finalizer.rm, hfs]
    cases hfr : (finalizer.rm env nm sns sec).1 with
    | ok u =>
      simp [secret_cleanup, hlist, hok, hfr, hrm]
    | error e =>
      simp [secret_cleanup, hlist, hok, hfr, hrm]

/-- C3 witness: empty enumeration — the finalizer-removal patch (with an
explicit empty list) is issued. -/
theorem c3_cleanup_finalizer_order_witness :
    Op.patchSecret "default" "s1" (.finalizersPatch [])
      ∈ (secret_cleanup envTrivial secSrc "default" "s1" "u1").2 := by
  have h := (c3_cleanup_finalizer_order envTrivial secSrc "default" "s1" "u1").2.2
    [] [FINALIZER_NAME] rfl (by simp) rfl
  simpa using h

/-! ## C2 -/

/-- C2 as frozen is refuted: the live-path classifier matches the
ownership-marker label key ASCII-case-insensitively, so a destination
object whose label map lacks the exact ownership-marker key — here it
carries only the upper-cased variant — is classified managed and receives
a payload merge-patch when its payload differs from the source. -/
theorem c2_counterexample :
    foreignUpper.metadata.labels = some [("EU.FITZEK.SPREAD.OWNER", "u1")]
    ∧ mapLookup [("EU.FITZEK.SPREAD.OWNER", "u1")] OWNER_LABEL_KEY = none
    ∧ (syncOne envForeignUpper secSrc "u1" "s1" "ns-a").2 =
        [Op.getSecret "ns-a" "s1",
         Op.patchSecret "ns-a" "s1" (.dataPatch (some [("k", [1, 2])]))] :=
  ⟨rfl, rfl, rfl⟩

/-- C2 amended: an object in a destination namespace whose label map
contains no key equal to the ownership marker under ASCII-case-insensitive
comparison is never mutated nor deleted: the live path issues nothing
beyond the read for it, every deletion of the garbage-collection path
targets the location of an object returned by the ownership-label-selector
list, and — under the API guarantee that the selector only returns objects
carrying the exact ownership label equal to the source UID — every deleted
object carries the marker and is therefore not such an object. -/
theorem c2_foreign_protected (env : Env) (sec : Secret) (uid nm ns sns : String) :
    (∀ ex, env.getSecret ns nm = .ok ex → lacksOwnerKeyCI ex →
      syncOne env sec uid nm ns = (.ok (), [Op.getSecret ns nm]))
    ∧ (∀ l, env.listSecrets OWNER_LABEL_KEY uid = .ok l →
        ∀ dns dn, Op.deleteSecret dns dn ∈ (secret_cleanup env sec sns nm uid).2 →
          ∃ s ∈ l, s.metadata.namespace_ = some dns ∧ s.metadata.name = some dn)
    ∧ (∀ l, env.listSecrets OWNER_LABEL_KEY uid = .ok l →
        (∀ s ∈ l, mapLookup ((s.metadata.labels).getD []) OWNER_LABEL_KEY = some uid) →
        ∀ dns dn, Op.deleteSecret dns dn ∈ (secret_cleanup env sec sns nm uid).2 →
          ∃ s ∈ l, s.metadata.namespace_ = some dns ∧ s.metadata.name = some dn ∧
            ¬ lacksOwnerKeyCI s) := by
  have h2 : ∀ l, env.listSecrets OWNER_LABEL_KEY uid = .ok l →
      ∀ dns dn, Op.deleteSecret dns dn ∈ (secret_cleanup env sec sns nm uid).2 →
        ∃ s ∈ l, s.metadata.namespace_ = some dns ∧ s.metadata.name = some dn := by
    intro l hlist dns dn hmem
    cases hcl : (cleanupLoop env l).1 with
    | err e =>
      simp [secret_cleanup, hlist, hcl] at hmem
      exact cleanupLoop_deletes env l dns dn hmem
    | panicked m =>
      simp [secret_cleanup, hlist, hcl] at hmem
      exact cleanupLoop_deletes env l dns dn hmem
    | ok u =>
      cases u
      cases hfr : (finalizer.rm env nm sns sec).1 with
      | ok v =>
        simp [secret_cleanup, hlist, hcl, hfr] at hmem
        rcases hmem with hmem | hmem
        · exact cleanupLoop_deletes env l dns dn hmem
        · obtain ⟨fins, hf⟩ := rm_trace_ops env nm sns sec _ hmem
          cases hf
      | error e =>
        simp [secret_cleanup, hlist, hcl, hfr] at hmem
        rcases hmem with hmem | hmem
        · exact cleanupLoop_deletes env l dns dn hmem
        · obtain ⟨fins, hf⟩ := rm_trace_ops env nm sns sec _ hmem
          cases hf
  refine ⟨?_, h2, ?_⟩
  · intro ex hget hlacks
    cases hlab : ex.metadata.labels with
    | none => simp [syncOne, hget, hlab]
    | some L =>
      have hfind : L.find? (fun a => eqIgnoreAsciiCase a.1 OWNER_LABEL_KEY) = none := by
        rw [List.find?_eq_none]
        intro p hp
        simp [hlacks L hlab p hp]
      simp [syncOne, hget, hlab, hfind]
  · intro l hlist hsel dns dn hmem
    obtain ⟨s, hs, hsprop⟩ := h2 l hlist dns dn hmem
    refine ⟨s, hs, hsprop.1, hsprop.2, ?_⟩
    intro hlacks
    have hm := hsel s hs
    cases hlab : s.metadata.labels with
    | none => simp [hlab, mapLookup] at hm
    | some L =>
      rw [hlab] at hm
      simp only [Option.getD_some] at hm
      unfold mapLookup at hm
      cases hf : L.find? (fun p => p.1 == OWNER_LABEL_KEY) with
      | none => rw [hf] at hm; cases hm
      | some p =>
        have hpmem := List.mem_of_find?_eq_some hf
        have hkey : p.1 = OWNER_LABEL_KEY := by
          have hpkey := List.find?_some hf
          simpa using hpkey
        have := hlacks L hlab p hpmem
        rw [hkey, eqIgnoreAsciiCase_refl] at this
        cases this

/-- C2 witness: a destination object with no case-variant of the ownership
key in its labels — here the managed fixture stripped of its labels — is
left untouched by the live path; instantiated through the amended theorem
at a store whose read misses everywhere, the deletion conjunct holding
vacuously for the empty enumeration. -/
theorem c2_foreign_protected_witness :
    ∀ dns dn, Op.deleteSecret dns dn ∈
      (secret_cleanup envTrivial secSrc "default" "s1" "u1").2 →
      ∃ s ∈ ([] : List Secret),
        s.metadata.namespace_ = some dns ∧ s.metadata.name = some dn :=
  (c2_foreign_protected envTrivial secSrc "u1" "s1" "ns-a" "default").2.1 [] rfl

/-! ## C8 -/

/-- C8: the wildcard directive resolves to the names of all cluster
namespaces, any other directive to its comma-split tokens; the
synchronization loop skips a namespace equal to the source namespace; and
on the concrete cluster {default, ns-a, ns-b} with the source in `default`
and directive `*`, exactly `ns-a` and `ns-b` are synchronized. -/
theorem c8_namespace_resolution (env : Env) :
    (∀ l, env.nsList = .ok l →
      resolve_namespaces env "*" = (namespaceNames l, [Op.listNamespaces]))
    ∧ (∀ t, t ≠ "*" → resolve_namespaces env t = (.ok (splitOnComma t), []))
    ∧ (∀ sec uid sns nm rest,
        syncLoop env sec uid sns nm (sns :: rest) = syncLoop env sec uid sns nm rest)
    ∧ namespaceNames [{ name := some "default" }, { name := some "ns-a" },
        { name := some "ns-b" }] = .ok ["default", "ns-a", "ns-b"]
    ∧ (sync_secret envThreeNs secSrc "u1" "default" "s1" "*").2 =
        [Op.listNamespaces,
         Op.getSecret "ns-a" "s1",
         Op.createSecret "ns-a" (mkReplica secSrc "s1" "ns-a" "u1"),
         Op.getSecret "ns-b" "s1",
         Op.createSecret "ns-b" (mkReplica secSrc "s1" "ns-b" "u1")] := by
  refine ⟨?_, ?_, ?_, rfl, rfl⟩
  · intro l hl
    simp [resolve_namespaces, hl]
  · intro t ht
    simp [resolve_namespaces, ht]
  · intro sec uid sns nm rest
    simp [syncLoop]

/-- C8 witness: wildcard expansion over the three-namespace cluster and
comma splitting of an explicit directive. -/
theorem c8_namespace_resolution_witness :
    resolve_namespaces envThreeNs "*" =
      (.ok ["default", "ns-a", "ns-b"], [Op.listNamespaces])
    ∧ resolve_namespaces envThreeNs "ns-a,ns-b" = (.ok ["ns-a", "ns-b"], []) :=
  ⟨(c8_namespace_resolution envThreeNs).1 _ rfl,
   (c8_namespace_resolution envThreeNs).2.1 "ns-a,ns-b" (by decide)⟩

/-! ## C9 -/

theorem namespaceNames_ok :
    ∀ l : List NamespaceObj, (∀ n ∈ l, n.name.isSome = true) →
      ∃ vs, namespaceNames l = .ok vs := by
  intro l
  induction l with
  | nil => exact fun _ => ⟨[], rfl⟩
  | cons n rest ih =>
    intro h
    obtain ⟨v, hv⟩ := Option.isSome_iff_exists.mp (h n (by simp))
    obtain ⟨vs, hvs⟩ := ih (fun m hm => h m (List.mem_cons_of_mem n hm))
    exact ⟨v :: vs, by simp [namespaceNames, hv, hvs]⟩

theorem syncOne_no_panic (env : Env) (hwf : EnvWF env) (sec : Secret)
    (uid nm ns : String) :
    isPanicked (syncOne env sec uid nm ns).1 = false := by
  cases hget : env.getSecret ns nm with
  | error e =>
    cases hnf : isNotFound e with
    | true =>
      cases hcr : env.createSecret ns (mkReplica sec nm ns uid) with
      | ok u => simp [syncOne, hget, hnf, hcr, isPanicked]
      | error e2 => simp [syncOne, hget, hnf, hcr, isPanicked]
    | false => simp [syncOne, hget, hnf, isPanicked]
  | ok ex =>
    obtain ⟨exName, hexn⟩ :=
      Option.isSome_iff_exists.mp (hwf.gotNames ns nm ex hget)
    cases hlab : ex.metadata.labels with
    | none => simp [syncOne, hget, hlab, isPanicked]
    | some L =>
      cases hfind : L.find? (fun a => eqIgnoreAsciiCase a.1 OWNER_LABEL_KEY) with
      | none => simp [syncOne, hget, hlab, hfind, isPanicked]
      | some p =>
        by_cases hdata : ex.data = sec.data
        · simp [syncOne, hget, hlab, hfind, hdata, isPanicked]
        · cases hp : env.patchSecret ns exName (.dataPatch sec.data) with
          | ok u => simp [syncOne, hget, hlab, hfind, hdata, hexn, hp, isPanicked]
          | error e2 => simp [syncOne, hget, hlab, hfind, hdata, hexn, hp, isPanicked]

theorem syncLoop_no_panic (env : Env) (hwf : EnvWF env) (sec : Secret)
    (uid sns nm : String) :
    ∀ nss, isPanicked (syncLoop env sec uid sns nm nss).1 = false := by
  intro nss
  induction nss with
  | nil => rfl
  | cons ns rest ih =>
    by_cases hns : ns = sns
    · simpa [syncLoop, hns] using ih
    · have hso := syncOne_no_panic env hwf sec uid nm ns
      cases hs1 : (syncOne env sec uid nm ns).1 with
      | ok u => simpa [syncLoop, hns, hs1] using ih
      | err e => simp [syncLoop, hns, hs1, isPanicked]
      | panicked m => rw [hs1] at hso; simp [isPanicked] at hso

theorem cleanupLoop_no_panic (env : Env) :
    ∀ l : List Secret,
      (∀ s ∈ l, s.metadata.name.isSome = true ∧ s.metadata.namespace_.isSome = true) →
      isPanicked (cleanupLoop env l).1 = false := by
  intro l
  induction l with
  | nil => intro _; rfl
  | cons s rest ih =>
    intro h
    obtain ⟨hn1, hns1⟩ := h s (by simp)
    obtain ⟨sname, hn⟩ := Option.isSome_iff_exists.mp hn1
    obtain ⟨sns, hns⟩ := Option.isSome_iff_exists.mp hns1
    cases hd : env.deleteSecret sns sname with
    | error e => simp [cleanupLoop, hn, hns, hd, isPanicked]
    | ok u =>
      have ht := ih (fun t ht2 => h t (List.mem_cons_of_mem s ht2))
      simpa [cleanupLoop, hn, hns, hd] using ht

theorem sync_secret_no_panic (env : Env) (hwf : EnvWF env) (sec : Secret)
    (uid sns nm tgt : String) :
    isPanicked (sync_secret env sec uid sns nm tgt).1 = false := by
  cases hfa : (finalizer.add env nm sns sec).1 with
  | error e => simp [sync_secret, hfa, isPanicked]
  | ok u =>
    cases hres : (resolve_namespaces env tgt).1 with
    | err e => simp [sync_secret, hfa, hres, isPanicked]
    | panicked m =>
      exfalso
      by_cases ht : tgt = "*"
      · subst ht
        cases hnl : env.nsList with
        | error e => simp [resolve_namespaces, hnl] at hres
        | ok l =>
          obtain ⟨vs, hvs⟩ := namespaceNames_ok l (hwf.nsNames l hnl)
          simp [resolve_namespaces, hnl, hvs] at hres
      · simp [resolve_namespaces, ht] at hres
    | ok nss =>
      have hsl2 := syncLoop_no_panic env hwf sec uid sns nm nss
      cases hsl : (syncLoop env sec uid sns nm nss).1 with
      | ok u2 => simp [sync_secret, hfa, hres, hsl, isPanicked]
      | err e => simp [sync_secret, hfa, hres, hsl, isPanicked]
      | panicked m => rw [hsl] at hsl2; simp [isPanicked] at hsl2

theorem secret_cleanup_no_panic (env : Env) (hwf : EnvWF env) (sec : Secret)
    (sns nm uid : String) :
    isPanicked (secret_cleanup env sec sns nm uid).1 = false := by
  cases hlist : env.listSecrets OWNER_LABEL_KEY uid with
  | error e => simp [secret_cleanup, hlist, isPanicked]
  | ok l =>
    have hcl2 := cleanupLoop_no_panic env l (hwf.listedMeta _ _ l hlist)
    cases hc : (cleanupLoop env l).1 with
    | err e => simp [secret_cleanup, hlist, hc, isPanicked]
    | panicked m => rw [hc] at hcl2; simp [isPanicked] at hcl2
    | ok u =>
      cases hfr : (finalizer.rm env nm sns sec).1 with
      | ok v => simp [secret_cleanup, hlist, hc, hfr, isPanicked]
      | error e => simp [secret_cleanup, hlist, hc, hfr, isPanicked]

/-- C9 as frozen is refuted: `secret_cleanup` calls `.unwrap()` on the
namespace of each enumerated replica, so an invocation in which the
cluster-wide list returns a replica lacking `metadata.namespace` panics
instead of returning a typed error. -/
theorem c9_counterexample :
    (secret_cleanup envBadList secSrc "default" "s1" "u1").1 =
      .panicked "called Option::unwrap on a None value" := rfl

/-- C9 amended: provided every object the store returns carries the
metadata the Kubernetes API guarantees (names everywhere, namespaces on
cluster-wide listed replicas) and the source object carries a name, no
path of `reconcile` — live synchronization, garbage collection or
finalizer management — panics: every outcome is a normal return or a typed
error. -/
theorem c9_no_panic (env : Env) (sec : Secret) (hwf : EnvWF env)
    (hname : sec.metadata.name.isSome = true) :
    isPanicked (reconcile env sec).1 = false := by
  cases hd : get_target_namespace sec with
  | none => simp [reconcile, hd, isPanicked]
  | some tgt =>
    cases hns : sec.metadata.namespace_ with
    | none => simp [reconcile, hd, hns, isPanicked]
    | some sns =>
      cases huid : sec.metadata.uid with
      | none => simp [reconcile, hd, hns, huid, isPanicked]
      | some uid =>
        obtain ⟨nm, hnm⟩ := Option.isSome_iff_exists.mp hname
        by_cases hdel : sec.metadata.deletion_timestamp.isSome = true
        · have h := secret_cleanup_no_panic env hwf sec sns nm uid
          simpa [reconcile, hd, hns, huid, hnm, hdel] using h
        · have h := sync_secret_no_panic env hwf sec uid sns nm tgt
          simpa [reconcile, hd, hns, huid, hnm, hdel] using h

/-- C9 witness: the full live reconciliation of the concrete source secret
against the trivial store does not panic. -/
theorem c9_no_panic_witness :
    isPanicked (reconcile envTrivial secSrc).1 = false :=
  c9_no_panic envTrivial secSrc
    ⟨by intro l hl n hn
        simp only [envTrivial] at hl
        cases hl
        simp at hn,
     by intro ns nm ex h
        simp [envTrivial] at h,
     by intro k v l hl s hs
        simp only [envTrivial] at hl
        cases hl
        simp at hs⟩
    rfl

end Spread
